import Mathlib

/-!
Verification development for the multithreaded RSS feed indexer.

The crawl core is embedded shallowly:

* `Item`, `Article`, `AddEvent`, `Oracle` model the data flowing through the
  crawl: rss items with optional fields, article identities, one call to
  `ArticleIndex::add`, and the mocked external collaborators (feed fetch,
  hostname extraction, article tokenization).
* `Single`, `Multi`, `Pooled` embed `process_feed_file` / `process_feed` of
  src/single.rs, src/multi.rs and src/pooled.rs as functions from an oracle
  (plus a scheduler choice for the concurrent strategies) to the list of
  index-add events performed and a success flag.
* `interleave` models an arbitrary scheduler interleaving the per-thread
  event sequences; any schedule yields a permutation of the joined work.
* `Multi.CStep` is the admission-counter transition system of src/multi.rs
  (condition-variable gated counters with caps 5/10/18), including the
  failure path where a worker panics between acquire and release.
* `ThreadPool.shutdownQueue` / `ThreadPool.drainExec` model the mpsc queue of
  src/threadpool.rs after `Drop` enqueued one `None` sentinel per worker.
* `renderMatches` embeds the query-result formatting of src/main.rs.

`searchIndex` (the finalized word to article to count view) is modelled from
the spec because src/common.rs is not available.
-/

namespace RssFeed

/-- Article identity, src/common.rs `Article`: title and url, equality by the pair
(modelled from the spec data model, src/common.rs is not under src/). -/
structure Article where
  title : String
  url : String
deriving DecidableEq

/-- An rss `Item` as consumed by the crawl: `link()` and `title()` are optional,
as in the rss crate. -/
structure Item where
  link : Option String
  title : Option String
deriving DecidableEq

/-- Word-occurrence counts produced by the external tokenizer for one article. -/
abbrev WordCounts := List (String × Nat)

/-- Mocked external collaborators:
`fetchFeed` is `Channel::from_url` (`none` = fetch/parse failure),
`host` is `Url::parse(url).host_str()` (`none` = no hostname),
`tokenize` is `process_article` (`none` = fetch/tokenize failure). -/
structure Oracle where
  fetchFeed : String → Option (List Item)
  host : String → Option String
  tokenize : Article → Option WordCounts

/-- One call to `ArticleIndex::add(site, title, url, words)`. -/
structure AddEvent where
  site : String
  title : String
  url : String
  words : WordCounts
deriving DecidableEq

/-! ## Scheduler model

The concurrent strategies run many sequential workers; the observable history
of index adds is an interleaving of the per-worker sequences.  A schedule is a
list of indices; each entry runs the next action of the chosen worker, and
when the schedule ends the remaining work is drained in order (the join). -/

/-- Run one action of worker `i`: pop the head of the i-th sequence. -/
def stepThreads (ls : List (List α)) (i : Nat) : Option α × List (List α) :=
  match ls[i]? with
  | some (a :: t) => (some a, ls.set i t)
  | _ => (none, ls)

/-- Interleave the per-worker sequences according to a schedule, draining the
rest at the end. -/
def interleave (ls : List (List α)) : List Nat → List α
  | [] => ls.flatten
  | i :: rest =>
    match stepThreads ls i with
    | (some a, ls2) => a :: interleave ls2 rest
    | (none, _) => interleave ls rest

theorem flatten_set_perm :
    ∀ (ls : List (List α)) (i : Nat) (a : α) (t : List α),
      ls[i]? = some (a :: t) → ls.flatten.Perm (a :: (ls.set i t).flatten)
  | [], i, _, _, h => by simp at h
  | l :: ls, 0, a, t, h => by
    simp only [List.getElem?_cons_zero, Option.some.injEq] at h
    subst h
    simp
  | l :: ls, i + 1, a, t, h => by
    simp only [List.getElem?_cons_succ] at h
    have ih := flatten_set_perm ls i a t h
    simp only [List.flatten_cons, List.set_cons_succ]
    exact (ih.append_left l).trans List.perm_middle

/-- Every schedule produces a permutation of the joined per-worker work. -/
theorem interleave_perm (sched : List Nat) :
    ∀ ls : List (List α), (interleave ls sched).Perm ls.flatten := by
  induction sched with
  | nil => intro ls; exact List.Perm.refl _
  | cons i rest ih =>
    intro ls
    unfold interleave stepThreads
    cases h : ls[i]? with
    | none => simpa using ih ls
    | some l =>
      cases l with
      | nil => simpa using ih ls
      | cons a t =>
        simpa using ((ih (ls.set i t)).cons a).trans (flatten_set_perm ls i a t h).symm

/-! ## Single-threaded reference strategy, src/single.rs

`process_feed_file` / `process_feed` are embedded as functions returning the
list of `ArticleIndex::add` events performed (the index mutation history) and
a success flag; `false` means a `?`-propagated error aborted the run.  Adds
performed before the aborting item are kept, as the Rust code mutates the
index in place. -/

namespace Single

/-- The item loop of src/single.rs `process_feed` (lines 34-50): an item missing
link, hostname or title is skipped; a `process_article` failure propagates,
dropping the rest of the feed. -/
def processItems (o : Oracle) (feedUrl : String) : List Item → List AddEvent × Bool
  | [] => ([], true)
  | item :: rest =>
    match item.link, o.host feedUrl, item.title with
    | some u, some s, some t =>
      match o.tokenize ⟨t, u⟩ with
      | none => ([], false)
      | some w =>
        let p := processItems o feedUrl rest
        (⟨s, t, u, w⟩ :: p.1, p.2)
    | _, _, _ => processItems o feedUrl rest

/-- src/single.rs `process_feed`: `Channel::from_url(url)?` then the item loop. -/
def process_feed (o : Oracle) (url : String) : List AddEvent × Bool :=
  match o.fetchFeed url with
  | none => ([], false)
  | some items => processItems o url items

/-- The feed loop of src/single.rs `process_feed_file` (lines 17-22): a feed item
missing link or title hits `ok_or(RssIndexError::UrlError)?` and aborts the run. -/
def processFeeds (o : Oracle) : List Item → List AddEvent × Bool
  | [] => ([], true)
  | feed :: rest =>
    match feed.link, feed.title with
    | some url, some _ =>
      let p := process_feed o url
      if p.2 then
        let q := processFeeds o rest
        (p.1 ++ q.1, q.2)
      else (p.1, false)
    | _, _ => ([], false)

/-- src/single.rs `process_feed_file`: `File::open(file_name)?` and
`Channel::read_from(..)?` are modelled by the `Option`-valued file argument
(`none` = the feed-list file could not be opened or parsed). -/
def process_feed_file (o : Oracle) (file : Option (List Item)) : List AddEvent × Bool :=
  match file with
  | none => ([], false)
  | some feeds => processFeeds o feeds

end Single

/-! ## Dynamic (multi) strategy, src/multi.rs

One thread per feed and one per article.  Each article thread performs at most
one index add; a fetch or tokenize failure is `unwrap`-ed, panicking the thread
and producing no add.  The order in which the adds hit the shared index is an
arbitrary interleaving of the per-article job sequences. -/

namespace Multi

/-- src/multi.rs line 14. -/
def MAX_THREADS_FEEDS : Nat := 5
/-- src/multi.rs line 15. -/
def MAX_THREADS_SITES : Nat := 10
/-- src/multi.rs line 16. -/
def MAX_THREADS_TOTAL : Nat := 18

/-- The adds performed by one article thread of src/multi.rs `process_feed`
(lines 126-181): `process_article(&article).unwrap()` panics the thread on
failure, so a failing article contributes nothing. -/
def articleJobEvents (o : Oracle) (site title url : String) : List AddEvent :=
  match o.tokenize ⟨title, url⟩ with
  | none => []
  | some w => [⟨site, title, url, w⟩]

/-- The article threads spawned by the item loop of src/multi.rs `process_feed`
(lines 114-124): an item missing link, hostname or title is skipped
(`continue`); the site tag is the hostname of the enclosing feed URL. -/
def itemJobs (o : Oracle) (feedUrl : String) (items : List Item) : List (List AddEvent) :=
  items.filterMap fun item =>
    match item.link, o.host feedUrl, item.title with
    | some u, some s, some t => some (articleJobEvents o s t u)
    | _, _, _ => none

/-- The article threads spawned by the item loop of src/multi.rs `process_feed`
(lines 114-126), keeping the per-site admission key together with the adds:
each surviving item captures the (url, site, title) triple of the single match
at lines 117-124 and spawns a thread.  The first component is the `site`
string that thread uses as its per-site admission key — the sites_count entry
it waits on, increments and decrements at lines 134-147 and 168-174, i.e. the
`Kind.articleK site` of the spawned worker in the counter system below — and
the second component is the add events its body performs (line 162).  Both
come from the same `site` binding, the hostname of the enclosing feed URL. -/
def articleThreads (o : Oracle) (feedUrl : String) (items : List Item) :
    List (String × List AddEvent) :=
  items.filterMap fun item =>
    match item.link, o.host feedUrl, item.title with
    | some u, some s, some t => some (s, articleJobEvents o s t u)
    | _, _, _ => none

/-- src/multi.rs `process_feed` (lines 106-113): `Channel::from_url(url)?` with
the error `unwrap`-ed by the feed thread, which then spawns no article threads. -/
def articleJobs (o : Oracle) (url : String) : List (List AddEvent) :=
  match o.fetchFeed url with
  | none => []
  | some items => itemJobs o url items

/-- The feed threads of src/multi.rs `process_feed_file` (lines 52-97): a feed
item missing link or title is `unwrap`-ed, panicking the feed thread; the
article jobs of all feeds run concurrently. -/
def feedJobs (o : Oracle) (feeds : List Item) : List (List AddEvent) :=
  feeds.flatMap fun feed =>
    match feed.link, feed.title with
    | some url, some _ => articleJobs o url
    | _, _ => []

/-- src/multi.rs `process_feed_file`: file open/parse failure propagates with
`?`; otherwise the run joins every thread and returns Ok, with the adds
interleaved under an arbitrary schedule. -/
def process_feed_file (o : Oracle) (file : Option (List Item)) (sched : List Nat) :
    List AddEvent × Bool :=
  match file with
  | none => ([], false)
  | some feeds => (interleave (feedJobs o feeds) sched, true)

end Multi

/-! ## Pooled strategy, src/pooled.rs

Feed jobs run on a 3-worker pool and enqueue article closures into a shared
20-worker pool.  The queue order is an interleaving of the per-feed enqueue
sequences, and the adds again complete under an arbitrary schedule. -/

namespace Pooled

/-- src/pooled.rs line 13. -/
def SIZE_FEEDS_POOL : Nat := 3
/-- src/pooled.rs line 14. -/
def SIZE_SITES_POOL : Nat := 20

/-- The adds of one article closure of src/pooled.rs `process_feed`
(lines 59-69): `process_article(&article).unwrap()` panics the pool worker on
failure, producing no add. -/
def articleClosureEvents (o : Oracle) (site title url : String) : List AddEvent :=
  match o.tokenize ⟨title, url⟩ with
  | none => []
  | some w => [⟨site, title, url, w⟩]

/-- The closures enqueued by the item loop of src/pooled.rs `process_feed`
(lines 49-71): items missing link, hostname or title are skipped; the site tag
is the hostname of the enclosing feed URL. -/
def itemClosures (o : Oracle) (feedUrl : String) (items : List Item) : List (List AddEvent) :=
  items.filterMap fun item =>
    match item.link, o.host feedUrl, item.title with
    | some u, some s, some t => some (articleClosureEvents o s t u)
    | _, _, _ => none

/-- One feed job of src/pooled.rs `process_feed_file` (lines 29-34): missing
link or title, or a failing `Channel::from_url`, is `unwrap`-ed, panicking the
feed-pool worker, which then enqueues nothing. -/
def feedJob (o : Oracle) (feed : Item) : List (List AddEvent) :=
  match feed.link, feed.title with
  | some url, some _ =>
    match o.fetchFeed url with
    | none => []
    | some items => itemClosures o url items
  | _, _ => []

/-- src/pooled.rs `process_feed_file`: file open/parse failure propagates with
`?`; otherwise the feed jobs interleave their enqueues into the shared sites
pool (`sched1`) and the article closures complete under `sched2`. -/
def process_feed_file (o : Oracle) (file : Option (List Item)) (sched1 sched2 : List Nat) :
    List AddEvent × Bool :=
  match file with
  | none => ([], false)
  | some feeds =>
    let queue := interleave (feeds.map (feedJob o)) sched1
    (interleave queue sched2, true)

end Pooled

/-! ## Finalized index, modelled from the spec -/

/-- Modelled from the spec: the per-word occurrence count inside one
contribution (src/common.rs is not under src/; spec section 3,
ArticleContribution). -/
def wordCount (ws : WordCounts) (w : String) : Nat :=
  ((ws.filter fun p => p.1 == w).map Prod.snd).sum

/-- Modelled from the spec: `ArticleIndex::add` plus `build_index` of
src/common.rs are not under src/.  Spec section 4.4: `add` merges the per-word
counts into the per-article running totals and `finalize` turns them into the
word to Article to count SearchIndex, so the finalized count for (w, a) is the
sum of the contributions of the add events tagged with article a. -/
def searchIndex (events : List AddEvent) (w : String) (a : Article) : Nat :=
  (events.map fun e =>
    if e.title = a.title ∧ e.url = a.url then wordCount e.words w else 0).sum

/-- The finalized index only depends on the multiset of add events: the merge
is commutative, so any interleaving finalizes identically. -/
theorem searchIndex_perm {ev1 ev2 : List AddEvent} (h : ev1.Perm ev2) :
    searchIndex ev1 = searchIndex ev2 := by
  funext w a
  exact
    (h.map fun e => if e.title = a.title ∧ e.url = a.url then wordCount e.words w else 0).sum_eq

/-- Permuting the worker list permutes the joined work. -/
theorem perm_flatten_of_perm {l1 l2 : List (List α)} (h : l1.Perm l2) :
    l1.flatten.Perm l2.flatten := by
  induction h with
  | nil => exact .rfl
  | cons x _ ih => simpa using ih.append_left x
  | swap x y l =>
    simp only [List.flatten_cons, ← List.append_assoc]
    exact (List.perm_append_comm).append_right l.flatten
  | trans _ _ ih1 ih2 => exact ih1.trans ih2

/-- With every tokenize call succeeding, the single-threaded item loop performs
exactly the adds of the multi-strategy article jobs, in feed order. -/
theorem single_items_eq_multi (o : Oracle) (furl : String)
    (hTok : ∀ a, (o.tokenize a).isSome) :
    ∀ items : List Item,
      Single.processItems o furl items = ((Multi.itemJobs o furl items).flatten, true) := by
  intro items
  induction items with
  | nil => rfl
  | cons item rest ih =>
    cases hl : item.link with
    | none => simpa [Single.processItems, Multi.itemJobs, hl] using ih
    | some u =>
      cases hh : o.host furl with
      | none => simpa [Single.processItems, Multi.itemJobs, hl, hh] using ih
      | some s =>
        cases ht : item.title with
        | none => simpa [Single.processItems, Multi.itemJobs, hl, hh, ht] using ih
        | some t =>
          obtain ⟨w, hw⟩ := Option.isSome_iff_exists.mp (hTok ⟨t, u⟩)
          simp [Single.processItems, Multi.itemJobs, Multi.articleJobEvents,
            hl, hh, ht, hw, ih]

/-- With every fetch and tokenize succeeding and every feed descriptor
complete, the single-threaded run succeeds and its add history is the joined
multi-strategy work, feed by feed. -/
theorem single_feeds_eq_multi (o : Oracle)
    (hFetch : ∀ u, (o.fetchFeed u).isSome) (hTok : ∀ a, (o.tokenize a).isSome) :
    ∀ feeds : List Item, (∀ f ∈ feeds, f.link.isSome ∧ f.title.isSome) →
      Single.processFeeds o feeds = ((Multi.feedJobs o feeds).flatten, true) := by
  intro feeds
  induction feeds with
  | nil => intro _; rfl
  | cons feed rest ih =>
    intro hFeeds
    obtain ⟨hl, ht⟩ := hFeeds feed (List.mem_cons_self feed rest)
    obtain ⟨url, hurl⟩ := Option.isSome_iff_exists.mp hl
    obtain ⟨title, htitle⟩ := Option.isSome_iff_exists.mp ht
    obtain ⟨items, hitems⟩ := Option.isSome_iff_exists.mp (hFetch url)
    have hrest := ih fun f hf => hFeeds f (List.mem_cons_of_mem feed hf)
    simp [Single.processFeeds, Single.process_feed, Multi.feedJobs, Multi.articleJobs,
      hurl, htitle, hitems, hrest, single_items_eq_multi o url hTok items,
      List.flatMap_cons]

/-- The pooled feed job enqueues, per feed, exactly the multi-strategy article
jobs: the two item loops are definitionally the same. -/
theorem pooled_flatten_eq_multi (o : Oracle) (feeds : List Item) :
    (feeds.map (Pooled.feedJob o)).flatten = Multi.feedJobs o feeds := by
  induction feeds with
  | nil => rfl
  | cons feed rest ih =>
    simp only [Multi.feedJobs] at ih ⊢
    simp only [List.map_cons, List.flatten_cons, List.flatMap_cons, ← ih]
    rfl

/-- C1: for every feed list of complete descriptors and every assignment of
successful mocked fetch and tokenize responses, the single, multi and pooled
strategies all succeed and finalize to the same SearchIndex, viewed as the
(word, article, count) counting function, for every schedule of the
concurrent strategies. -/
theorem strategy_equivalence (o : Oracle) (feeds : List Item) (s s1 s2 : List Nat)
    (hFetch : ∀ u, (o.fetchFeed u).isSome)
    (hTok : ∀ a, (o.tokenize a).isSome)
    (hFeeds : ∀ f ∈ feeds, f.link.isSome ∧ f.title.isSome) :
    (Single.process_feed_file o (some feeds)).2 = true ∧
    (Multi.process_feed_file o (some feeds) s).2 = true ∧
    (Pooled.process_feed_file o (some feeds) s1 s2).2 = true ∧
    searchIndex (Multi.process_feed_file o (some feeds) s).1 =
      searchIndex (Single.process_feed_file o (some feeds)).1 ∧
    searchIndex (Pooled.process_feed_file o (some feeds) s1 s2).1 =
      searchIndex (Single.process_feed_file o (some feeds)).1 := by
  have hs : Single.process_feed_file o (some feeds) =
      ((Multi.feedJobs o feeds).flatten, true) :=
    single_feeds_eq_multi o hFetch hTok feeds hFeeds
  have hmulti : (Multi.process_feed_file o (some feeds) s).1.Perm
      (Single.process_feed_file o (some feeds)).1 := by
    rw [hs]
    exact interleave_perm s (Multi.feedJobs o feeds)
  have hqueue : (interleave (feeds.map (Pooled.feedJob o)) s1).flatten.Perm
      (Multi.feedJobs o feeds).flatten := by
    rw [← pooled_flatten_eq_multi o feeds]
    exact perm_flatten_of_perm (interleave_perm s1 (feeds.map (Pooled.feedJob o)))
  have hpool : (Pooled.process_feed_file o (some feeds) s1 s2).1.Perm
      (Single.process_feed_file o (some feeds)).1 := by
    rw [hs]
    exact (interleave_perm s2 (interleave (feeds.map (Pooled.feedJob o)) s1)).trans hqueue
  refine ⟨by rw [hs], rfl, rfl, searchIndex_perm hmulti, searchIndex_perm hpool⟩

/-- Concrete instance of the strategy equivalence: one feed with one article
under an all-successful oracle, with nontrivial schedules. -/
theorem strategy_equivalence_witness :
    (Single.process_feed_file
        ⟨fun _ => some [⟨some "a1", some "A1"⟩, ⟨some "a2", some "A2"⟩],
         fun _ => some "h", fun _ => some [("w", 2)]⟩
        (some [⟨some "f", some "F"⟩])).2 = true ∧
    searchIndex
        (Multi.process_feed_file
          ⟨fun _ => some [⟨some "a1", some "A1"⟩, ⟨some "a2", some "A2"⟩],
           fun _ => some "h", fun _ => some [("w", 2)]⟩
          (some [⟨some "f", some "F"⟩]) [1, 0]).1 =
      searchIndex
        (Single.process_feed_file
          ⟨fun _ => some [⟨some "a1", some "A1"⟩, ⟨some "a2", some "A2"⟩],
           fun _ => some "h", fun _ => some [("w", 2)]⟩
          (some [⟨some "f", some "F"⟩])).1 := by
  have h := strategy_equivalence
    ⟨fun _ => some [⟨some "a1", some "A1"⟩, ⟨some "a2", some "A2"⟩],
     fun _ => some "h", fun _ => some [("w", 2)]⟩
    [⟨some "f", some "F"⟩] [1, 0] [0] [0, 0]
    (fun _ => rfl) (fun _ => rfl) (by decide)
  exact ⟨h.1, h.2.2.2.1⟩

/-- C9: in every strategy, a feed-list file that cannot be opened makes
process_feed_file return the error immediately: the run fails, no add event is
performed (the shared index is untouched) and no job is dispatched. -/
theorem file_open_failure_fatal (o : Oracle) (s s1 s2 : List Nat) :
    Single.process_feed_file o none = ([], false) ∧
    Multi.process_feed_file o none s = ([], false) ∧
    Pooled.process_feed_file o none s1 s2 = ([], false) :=
  ⟨rfl, rfl, rfl⟩

/-- Every add produced by the single-strategy item loop is tagged with the
hostname of the enclosing feed URL. -/
theorem single_site_of_mem (o : Oracle) (furl : String) :
    ∀ items : List Item, ∀ e ∈ (Single.processItems o furl items).1,
      o.host furl = some e.site := by
  intro items
  induction items with
  | nil => intro e he; simp [Single.processItems] at he
  | cons item rest ih =>
    intro e he
    cases hl : item.link with
    | none => exact ih e (by simpa [Single.processItems, hl] using he)
    | some u =>
      cases hh : o.host furl with
      | none => exact hh ▸ ih e (by simpa [Single.processItems, hl, hh] using he)
      | some st =>
        cases ht : item.title with
        | none => exact hh ▸ ih e (by simpa [Single.processItems, hl, hh, ht] using he)
        | some t =>
          cases hw : o.tokenize ⟨t, u⟩ with
          | none => simp [Single.processItems, hl, hh, ht, hw] at he
          | some w =>
            simp only [Single.processItems, hl, hh, ht, hw, List.mem_cons] at he
            rcases he with rfl | he
            · rfl
            · exact hh ▸ ih e he

/-- Every add of a multi-strategy article job is tagged with the hostname of
the enclosing feed URL. -/
theorem multi_site_of_mem (o : Oracle) (furl : String) :
    ∀ items : List Item, ∀ e ∈ (Multi.itemJobs o furl items).flatten,
      o.host furl = some e.site := by
  intro items e he
  rw [List.mem_flatten] at he
  obtain ⟨l, hl, hel⟩ := he
  simp only [Multi.itemJobs, List.mem_filterMap] at hl
  obtain ⟨item, _, hitem⟩ := hl
  cases hlk : item.link with
  | none => simp [hlk] at hitem
  | some u =>
    cases hh : o.host furl with
    | none => simp [hlk, hh] at hitem
    | some st =>
      cases ht : item.title with
      | none => simp [hlk, hh, ht] at hitem
      | some t =>
        simp only [hlk, hh, ht, Option.some.injEq] at hitem
        subst hitem
        unfold Multi.articleJobEvents at hel
        cases hw : o.tokenize ⟨t, u⟩ with
        | none => simp [hw] at hel
        | some w =>
          simp only [hw, List.mem_singleton] at hel
          subst hel
          rfl

/-- Every add of the multi-strategy feed jobs comes from the item loop of the
feed that encloses it, and is tagged with that feed hostname. -/
theorem multi_site_of_mem_feedJobs (o : Oracle) (feeds : List Item) :
    ∀ e ∈ (Multi.feedJobs o feeds).flatten, ∃ feed ∈ feeds, ∃ furl, ∃ fitems,
      feed.link = some furl ∧ o.fetchFeed furl = some fitems ∧
      e ∈ (Multi.itemJobs o furl fitems).flatten ∧ o.host furl = some e.site := by
  intro e he
  rw [List.mem_flatten] at he
  obtain ⟨l, hl, hel⟩ := he
  simp only [Multi.feedJobs, List.mem_flatMap] at hl
  obtain ⟨feed, hfeed, hjob⟩ := hl
  cases hlk : feed.link with
  | none => simp [hlk] at hjob
  | some furl =>
    cases ht : feed.title with
    | none => simp [hlk, ht] at hjob
    | some _ =>
      simp only [hlk, ht] at hjob
      unfold Multi.articleJobs at hjob
      cases hfetch : o.fetchFeed furl with
      | none => simp [hfetch] at hjob
      | some items =>
        rw [hfetch] at hjob
        have hmem : e ∈ (Multi.itemJobs o furl items).flatten :=
          List.mem_flatten.mpr ⟨l, hjob, hel⟩
        exact ⟨feed, hfeed, furl, items, hlk, hfetch, hmem,
          multi_site_of_mem o furl items e hmem⟩

/-- Every article thread spawned for a feed is admission-keyed by the hostname
of that enclosing feed URL, and every add it performs carries exactly that
key as its site tag. -/
theorem multi_threads_site (o : Oracle) (furl : String) (items : List Item) :
    ∀ p ∈ Multi.articleThreads o furl items,
      o.host furl = some p.1 ∧ ∀ e ∈ p.2, e.site = p.1 := by
  intro p hp
  simp only [Multi.articleThreads, List.mem_filterMap] at hp
  obtain ⟨item, _, hitem⟩ := hp
  cases hlk : item.link with
  | none => simp [hlk] at hitem
  | some u =>
    cases hh : o.host furl with
    | none => simp [hlk, hh] at hitem
    | some st =>
      cases ht : item.title with
      | none => simp [hlk, hh, ht] at hitem
      | some t =>
        simp only [hlk, hh, ht, Option.some.injEq] at hitem
        subst hitem
        refine ⟨rfl, ?_⟩
        intro e he
        unfold Multi.articleJobEvents at he
        cases hw : o.tokenize ⟨t, u⟩ with
        | none => simp [hw] at he
        | some w =>
          simp only [hw, List.mem_singleton] at he
          subst he
          rfl

/-- The multi-strategy job events are exactly the event components of the
spawned article threads: the adds are tagged with the same string that keys
the admission control. -/
theorem itemJobs_eq_threads (o : Oracle) (furl : String) :
    ∀ items : List Item,
      Multi.itemJobs o furl items = (Multi.articleThreads o furl items).map Prod.snd
  | [] => rfl
  | item :: items => by
    have ih := itemJobs_eq_threads o furl items
    unfold Multi.itemJobs Multi.articleThreads at ih ⊢
    cases hl : item.link with
    | none => simpa only [List.filterMap_cons, hl] using ih
    | some u =>
      cases hh : o.host furl with
      | none =>
        simp only [List.filterMap_cons, hl, hh] at ih ⊢
        exact ih
      | some st =>
        cases ht : item.title with
        | none =>
          simp only [List.filterMap_cons, hl, hh, ht] at ih ⊢
          exact ih
        | some t =>
          simp only [List.filterMap_cons, hl, hh, ht, List.map_cons] at ih ⊢
          rw [ih]

/-- C10: the site tag stored with every contribution is the hostname parsed
from the ENCLOSING feed URL — the url parameter that src/single.rs,
src/multi.rs and src/pooled.rs `process_feed` receive for the feed being
crawled — never the hostname of the article link; and in the dynamic strategy
the same string is the per-site admission key of the spawned article thread.
For the item loop of the feed at furl: every single-strategy add is tagged
host(furl); every multi-strategy article thread is admission-keyed by
host(furl) and all its adds carry exactly that key, the multi job events
being precisely the event components of those threads; every pooled add is
tagged host(furl); and at crawl level every multi add event belongs to the
item loop of the feed that encloses it and carries that feed hostname. -/
theorem site_tag_from_feed_url (o : Oracle) (furl : String) (items : List Item)
    (feeds : List Item) (s : List Nat) :
    (∀ e ∈ (Single.processItems o furl items).1, o.host furl = some e.site) ∧
    (∀ p ∈ Multi.articleThreads o furl items,
      o.host furl = some p.1 ∧ ∀ e ∈ p.2, e.site = p.1) ∧
    Multi.itemJobs o furl items = (Multi.articleThreads o furl items).map Prod.snd ∧
    (∀ e ∈ (Pooled.itemClosures o furl items).flatten, o.host furl = some e.site) ∧
    (∀ e ∈ (Multi.process_feed_file o (some feeds) s).1, ∃ feed ∈ feeds,
      ∃ furl2, ∃ fitems, feed.link = some furl2 ∧ o.fetchFeed furl2 = some fitems ∧
        e ∈ (Multi.itemJobs o furl2 fitems).flatten ∧ o.host furl2 = some e.site) := by
  refine ⟨single_site_of_mem o furl items, multi_threads_site o furl items,
    itemJobs_eq_threads o furl items, ?_, ?_⟩
  · intro e he
    have hpm : Pooled.itemClosures o furl items = Multi.itemJobs o furl items := rfl
    rw [hpm] at he
    exact multi_site_of_mem o furl items e he
  · intro e he
    have he2 : e ∈ (Multi.feedJobs o feeds).flatten :=
      ((interleave_perm s (Multi.feedJobs o feeds)).mem_iff).mp he
    exact multi_site_of_mem_feedJobs o feeds e he2

/-- Concrete instance: with hostname extraction returning "host-of-" ++ url,
the feed at "f" spawns an article thread whose admission key is "host-of-f"
and whose add is tagged "host-of-f" — the hostname of the enclosing feed URL,
distinct from "host-of-a", the hostname of the article own link "a". -/
theorem site_tag_from_feed_url_witness :
    ((Oracle.mk (fun _ => some [⟨some "a", some "A"⟩])
        (fun u => some ("host-of-" ++ u)) (fun _ => some [])).host "f" =
      some (("host-of-f", [AddEvent.mk "host-of-f" "A" "a" []])).1 ∧
     ∀ e ∈ (("host-of-f", [AddEvent.mk "host-of-f" "A" "a" []])).2,
       e.site = (("host-of-f", [AddEvent.mk "host-of-f" "A" "a" []])).1) ∧
    ("host-of-f" : String) ≠ "host-of-a" :=
  ⟨(site_tag_from_feed_url
      ⟨fun _ => some [⟨some "a", some "A"⟩], fun u => some ("host-of-" ++ u),
        fun _ => some []⟩ "f" [⟨some "a", some "A"⟩] [] []).2.1
      ("host-of-f", [AddEvent.mk "host-of-f" "A" "a" []]) (by decide), by decide⟩

/-! ## Admission counters of the dynamic strategy, src/multi.rs

The condition-variable protocol of `ThreadCount` as a transition system.  Each
worker thread is a straight-line program over the counters; the code order in
src/multi.rs is:

* feed thread (lines 55-95): wait until feeds_count < MAX_THREADS_FEEDS then
  increment; wait until total_count < MAX_THREADS_TOTAL then increment; do the
  work (`process_feed(..).unwrap()`, lines 79-82, which panics the thread on
  failure); decrement feeds_count; decrement total_count.
* article thread (lines 126-181): the same with sites_count[site] as the
  specific tier and `process_article(..).unwrap()` (line 161) as the work.

The check-then-increment of each tier is atomic (performed under that tier
mutex, the condvar wait loop re-checking the predicate), so it is one step
here.  A worker whose protected work fails panics between the increments and
the decrements and never runs the release code. -/

namespace Multi

/-- Worker kind: a feed thread, or an article thread keyed by its site. -/
inductive Kind where
  | feedK : Kind
  | articleK : String → Kind
deriving DecidableEq

/-- Control point of a worker in the acquire/work/release protocol. -/
inductive Phase where
  | start : Phase
  | holdSpec : Phase
  | holdBoth : Phase
  | holdTotal : Phase
  | finished : Phase
  | deadBoth : Phase
deriving DecidableEq

/-- One worker thread: its kind, whether its protected work will fail
(the oracle outcome for its fetch/tokenize call), and its control point. -/
structure Worker where
  kind : Kind
  fails : Bool
  phase : Phase
deriving DecidableEq

/-- State of `ThreadCount` (src/multi.rs lines 34-38) plus the worker control
points: feeds_count, total_count, sites_count (default 0 per site). -/
structure CState where
  feeds : Nat
  total : Nat
  sites : String → Nat
  workers : List Worker

/-- A worker at these control points has incremented its specific tier and not
yet decremented it (a worker dead at `deadBoth` never decrements). -/
def holdsSpec (w : Worker) : Bool :=
  w.phase == .holdSpec || w.phase == .holdBoth || w.phase == .deadBoth

/-- A worker at these control points has incremented total_count and not yet
decremented it. -/
def holdsTot (w : Worker) : Bool :=
  w.phase == .holdBoth || w.phase == .deadBoth || w.phase == .holdTotal

/-- One atomic step of the src/multi.rs counter protocol. -/
inductive CStep : CState → CState → Prop where
  | feedAcqFeeds (s : CState) (i : Nat) (w : Worker)
      (hw : s.workers[i]? = some w) (hk : w.kind = .feedK) (hp : w.phase = .start)
      (hc : s.feeds < MAX_THREADS_FEEDS) :
      CStep s ⟨s.feeds + 1, s.total, s.sites,
        s.workers.set i ⟨w.kind, w.fails, .holdSpec⟩⟩
  | articleAcqSite (s : CState) (i : Nat) (w : Worker) (site : String)
      (hw : s.workers[i]? = some w) (hk : w.kind = .articleK site)
      (hp : w.phase = .start) (hc : s.sites site < MAX_THREADS_SITES) :
      CStep s ⟨s.feeds, s.total, Function.update s.sites site (s.sites site + 1),
        s.workers.set i ⟨w.kind, w.fails, .holdSpec⟩⟩
  | acqTotal (s : CState) (i : Nat) (w : Worker)
      (hw : s.workers[i]? = some w) (hp : w.phase = .holdSpec)
      (hc : s.total < MAX_THREADS_TOTAL) :
      CStep s ⟨s.feeds, s.total + 1, s.sites,
        s.workers.set i ⟨w.kind, w.fails, .holdBoth⟩⟩
  | workPanics (s : CState) (i : Nat) (w : Worker)
      (hw : s.workers[i]? = some w) (hp : w.phase = .holdBoth) (hf : w.fails = true) :
      CStep s ⟨s.feeds, s.total, s.sites,
        s.workers.set i ⟨w.kind, w.fails, .deadBoth⟩⟩
  | feedRelFeeds (s : CState) (i : Nat) (w : Worker)
      (hw : s.workers[i]? = some w) (hk : w.kind = .feedK)
      (hp : w.phase = .holdBoth) (hf : w.fails = false) :
      CStep s ⟨s.feeds - 1, s.total, s.sites,
        s.workers.set i ⟨w.kind, w.fails, .holdTotal⟩⟩
  | articleRelSite (s : CState) (i : Nat) (w : Worker) (site : String)
      (hw : s.workers[i]? = some w) (hk : w.kind = .articleK site)
      (hp : w.phase = .holdBoth) (hf : w.fails = false) :
      CStep s ⟨s.feeds, s.total, Function.update s.sites site (s.sites site - 1),
        s.workers.set i ⟨w.kind, w.fails, .holdTotal⟩⟩
  | relTotal (s : CState) (i : Nat) (w : Worker)
      (hw : s.workers[i]? = some w) (hp : w.phase = .holdTotal) :
      CStep s ⟨s.feeds, s.total - 1, s.sites,
        s.workers.set i ⟨w.kind, w.fails, .finished⟩⟩

/-- Reachability under the counter protocol. -/
abbrev Reach : CState → CState → Prop := Relation.ReflTransGen CStep

/-- The crawl starts with zero counters and every worker at its entry point. -/
def initState (ws : List Worker) : CState := ⟨0, 0, fun _ => 0, ws⟩

/-- All workers at their entry point. -/
def Ready (ws : List Worker) : Prop := ∀ w ∈ ws, w.phase = .start

/-- Number of workers of kind k currently holding their specific tier. -/
def specHolders (ws : List Worker) (k : Kind) : Nat :=
  ws.countP fun w => w.kind == k && holdsSpec w

/-- Number of workers currently holding the total tier. -/
def totHolders (ws : List Worker) : Nat := ws.countP holdsTot

/-- The protocol invariant: every counter equals the number of workers
currently holding that tier, and every counter is within its cap. -/
def Inv (s : CState) : Prop :=
  s.feeds = specHolders s.workers .feedK ∧
  s.total = totHolders s.workers ∧
  (∀ site, s.sites site = specHolders s.workers (.articleK site)) ∧
  s.feeds ≤ MAX_THREADS_FEEDS ∧
  s.total ≤ MAX_THREADS_TOTAL ∧
  ∀ site, s.sites site ≤ MAX_THREADS_SITES

theorem countP_set_get {α : Type _} :
    ∀ (l : List α) (i : Nat) (a b : α) (p : α → Bool), l[i]? = some a →
      (l.set i b).countP p + (if p a then 1 else 0) =
        l.countP p + (if p b then 1 else 0)
  | [], i, _, _, _, h => by simp at h
  | x :: l, 0, a, b, p, h => by
    simp only [List.getElem?_cons_zero, Option.some.injEq] at h
    subst h
    simp only [List.set_cons_zero, List.countP_cons]
    omega
  | x :: l, i + 1, a, b, p, h => by
    simp only [List.getElem?_cons_succ] at h
    have ih := countP_set_get l i a b p h
    simp only [List.set_cons_succ, List.countP_cons]
    omega

theorem specHolders_set (ws : List Worker) (i : Nat) (a b : Worker) (k : Kind)
    (hw : ws[i]? = some a) :
    specHolders (ws.set i b) k + (if a.kind == k && holdsSpec a then 1 else 0) =
      specHolders ws k + (if b.kind == k && holdsSpec b then 1 else 0) :=
  countP_set_get ws i a b _ hw

theorem totHolders_set (ws : List Worker) (i : Nat) (a b : Worker)
    (hw : ws[i]? = some a) :
    totHolders (ws.set i b) + (if holdsTot a then 1 else 0) =
      totHolders ws + (if holdsTot b then 1 else 0) :=
  countP_set_get ws i a b _ hw

/-- Every step of the protocol preserves the counting invariant and the caps:
the guarded increments cannot exceed the caps, and each release decrements a
counter that the counting part shows to be positive. -/
theorem inv_step {s s' : CState} (h : CStep s s') (hI : Inv s) : Inv s' := by
  obtain ⟨h1, h2, h3, h4, h5, h6⟩ := hI
  cases h with
  | feedAcqFeeds i w hw hk hp hc =>
    obtain ⟨wk, wf, wp⟩ := w
    replace hk : wk = Kind.feedK := hk
    replace hp : wp = Phase.start := hp
    subst hk hp
    have ef := specHolders_set s.workers i _ ⟨Kind.feedK, wf, .holdSpec⟩ .feedK hw
    have et := totHolders_set s.workers i _ ⟨Kind.feedK, wf, .holdSpec⟩ hw
    have es := fun site => specHolders_set s.workers i _ ⟨Kind.feedK, wf, .holdSpec⟩
      (.articleK site) hw
    simp +decide [holdsSpec, holdsTot] at ef et es
    refine ⟨?_, ?_, ?_, ?_, ?_, ?_⟩ <;> dsimp only
    · omega
    · omega
    · intro site
      have hx := es site
      have h3s := h3 site
      omega
    · omega
    · omega
    · exact h6
  | articleAcqSite i w site hw hk hp hc =>
    obtain ⟨wk, wf, wp⟩ := w
    replace hk : wk = Kind.articleK site := hk
    replace hp : wp = Phase.start := hp
    subst hk hp
    have ef := specHolders_set s.workers i _ ⟨Kind.articleK site, wf, .holdSpec⟩ .feedK hw
    have et := totHolders_set s.workers i _ ⟨Kind.articleK site, wf, .holdSpec⟩ hw
    have es := fun site' => specHolders_set s.workers i _ ⟨Kind.articleK site, wf, .holdSpec⟩
      (.articleK site') hw
    simp +decide [holdsSpec, holdsTot] at ef et es
    refine ⟨?_, ?_, ?_, ?_, ?_, ?_⟩ <;> dsimp only
    · omega
    · omega
    · intro site'
      have hx := es site'
      have h3s := h3 site'
      by_cases hss : site' = site
      · subst hss
        simp only [Function.update_same]
        simp at hx
        omega
      · rw [Function.update_noteq hss]
        rw [if_neg fun hq => hss hq.symm] at hx
        omega
    · omega
    · omega
    · intro site'
      by_cases hss : site' = site
      · subst hss
        simp only [Function.update_same]
        have h3s := h3 site'
        omega
      · rw [Function.update_noteq hss]
        exact h6 site'
  | acqTotal i w hw hp hc =>
    obtain ⟨wk, wf, wp⟩ := w
    replace hp : wp = Phase.holdSpec := hp
    subst hp
    have ef := specHolders_set s.workers i _ ⟨wk, wf, .holdBoth⟩ .feedK hw
    have et := totHolders_set s.workers i _ ⟨wk, wf, .holdBoth⟩ hw
    have es := fun site => specHolders_set s.workers i _ ⟨wk, wf, .holdBoth⟩
      (.articleK site) hw
    simp +decide [holdsSpec, holdsTot] at ef et es
    refine ⟨?_, ?_, ?_, ?_, ?_, ?_⟩ <;> dsimp only
    · omega
    · omega
    · intro site
      have hx := es site
      have h3s := h3 site
      omega
    · omega
    · omega
    · exact h6
  | workPanics i w hw hp hf =>
    obtain ⟨wk, wf, wp⟩ := w
    replace hp : wp = Phase.holdBoth := hp
    subst hp
    have ef := specHolders_set s.workers i _ ⟨wk, wf, .deadBoth⟩ .feedK hw
    have et := totHolders_set s.workers i _ ⟨wk, wf, .deadBoth⟩ hw
    have es := fun site => specHolders_set s.workers i _ ⟨wk, wf, .deadBoth⟩
      (.articleK site) hw
    simp +decide [holdsSpec, holdsTot] at ef et es
    refine ⟨?_, ?_, ?_, ?_, ?_, ?_⟩ <;> dsimp only
    · omega
    · omega
    · intro site
      have hx := es site
      have h3s := h3 site
      omega
    · omega
    · omega
    · exact h6
  | feedRelFeeds i w hw hk hp hf =>
    obtain ⟨wk, wf, wp⟩ := w
    replace hk : wk = Kind.feedK := hk
    replace hp : wp = Phase.holdBoth := hp
    subst hk hp
    have ef := specHolders_set s.workers i _ ⟨Kind.feedK, wf, .holdTotal⟩ .feedK hw
    have et := totHolders_set s.workers i _ ⟨Kind.feedK, wf, .holdTotal⟩ hw
    have es := fun site => specHolders_set s.workers i _ ⟨Kind.feedK, wf, .holdTotal⟩
      (.articleK site) hw
    simp +decide [holdsSpec, holdsTot] at ef et es
    refine ⟨?_, ?_, ?_, ?_, ?_, ?_⟩ <;> dsimp only
    · omega
    · omega
    · intro site
      have hx := es site
      have h3s := h3 site
      omega
    · omega
    · omega
    · exact h6
  | articleRelSite i w site hw hk hp hf =>
    obtain ⟨wk, wf, wp⟩ := w
    replace hk : wk = Kind.articleK site := hk
    replace hp : wp = Phase.holdBoth := hp
    subst hk hp
    have ef := specHolders_set s.workers i _ ⟨Kind.articleK site, wf, .holdTotal⟩ .feedK hw
    have et := totHolders_set s.workers i _ ⟨Kind.articleK site, wf, .holdTotal⟩ hw
    have es := fun site' => specHolders_set s.workers i _ ⟨Kind.articleK site, wf, .holdTotal⟩
      (.articleK site') hw
    simp +decide [holdsSpec, holdsTot] at ef et es
    refine ⟨?_, ?_, ?_, ?_, ?_, ?_⟩ <;> dsimp only
    · omega
    · omega
    · intro site'
      have hx := es site'
      have h3s := h3 site'
      by_cases hss : site' = site
      · subst hss
        simp only [Function.update_same]
        simp at hx
        omega
      · rw [Function.update_noteq hss]
        rw [if_neg fun hq => hss hq.symm] at hx
        omega
    · omega
    · omega
    · intro site'
      by_cases hss : site' = site
      · subst hss
        simp only [Function.update_same]
        have h6s := h6 site'
        omega
      · rw [Function.update_noteq hss]
        exact h6 site'
  | relTotal i w hw hp =>
    obtain ⟨wk, wf, wp⟩ := w
    replace hp : wp = Phase.holdTotal := hp
    subst hp
    have ef := specHolders_set s.workers i _ ⟨wk, wf, .finished⟩ .feedK hw
    have et := totHolders_set s.workers i _ ⟨wk, wf, .finished⟩ hw
    have es := fun site => specHolders_set s.workers i _ ⟨wk, wf, .finished⟩
      (.articleK site) hw
    simp +decide [holdsSpec, holdsTot] at ef et es
    refine ⟨?_, ?_, ?_, ?_, ?_, ?_⟩ <;> dsimp only
    · omega
    · omega
    · intro site
      have hx := es site
      have h3s := h3 site
      omega
    · omega
    · omega
    · exact h6

/-- The invariant holds at the start of the crawl. -/
theorem inv_init (ws : List Worker) (hws : Ready ws) : Inv (initState ws) := by
  have hspec : ∀ k, specHolders ws k = 0 := by
    intro k
    apply List.countP_eq_zero.mpr
    intro w hw
    simp [holdsSpec, hws w hw]
  have htot : totHolders ws = 0 := by
    apply List.countP_eq_zero.mpr
    intro w hw
    simp [holdsTot, hws w hw]
  exact ⟨(hspec _).symm, htot.symm, fun site => (hspec _).symm,
    Nat.zero_le _, Nat.zero_le _, fun _ => Nat.zero_le _⟩

/-- The counting invariant holds in every reachable state. -/
theorem inv_of_reach {ws : List Worker} (hws : Ready ws) {s : CState}
    (h : Reach (initState ws) s) : Inv s := by
  induction h with
  | refl => exact inv_init ws hws
  | tail _ hstep ih => exact inv_step hstep ih

end Multi

/-- C3: at every observable instant of a dynamic-strategy run (every state
reachable by the counter protocol from a ready crawl), the admission counters
satisfy total less-or-equal 18 (MAX_THREADS_TOTAL), feeds less-or-equal 5
(MAX_THREADS_FEEDS), and sites[s] less-or-equal 10 (MAX_THREADS_SITES) for
every site s; the lower bound 0 is definitional for natural counters and the
counting invariant shows no decrement ever underflows. -/
theorem admission_counters_bounded (ws : List Multi.Worker) (s : Multi.CState)
    (hws : Multi.Ready ws) (h : Multi.Reach (Multi.initState ws) s) :
    s.feeds ≤ Multi.MAX_THREADS_FEEDS ∧ s.total ≤ Multi.MAX_THREADS_TOTAL ∧
      ∀ site, s.sites site ≤ Multi.MAX_THREADS_SITES := by
  have hI := Multi.inv_of_reach hws h
  exact ⟨hI.2.2.2.1, hI.2.2.2.2.1, hI.2.2.2.2.2⟩

/-- Concrete instance of the admission bound: a crawl with one feed worker and
one article worker, after the feed worker acquired both tiers. -/
theorem admission_counters_bounded_witness :
    (Multi.CState.mk 1 1 (fun _ => 0)
      [⟨.feedK, false, .holdBoth⟩, ⟨.articleK "a", false, .start⟩]).feeds ≤
        Multi.MAX_THREADS_FEEDS ∧
    (Multi.CState.mk 1 1 (fun _ => 0)
      [⟨.feedK, false, .holdBoth⟩, ⟨.articleK "a", false, .start⟩]).total ≤
        Multi.MAX_THREADS_TOTAL ∧
    (Multi.CState.mk 1 1 (fun _ => 0)
      [⟨.feedK, false, .holdBoth⟩, ⟨.articleK "a", false, .start⟩]).sites "a" ≤
        Multi.MAX_THREADS_SITES := by
  have hreach : Multi.Reach
      (Multi.initState [⟨.feedK, false, .start⟩, ⟨.articleK "a", false, .start⟩])
      (Multi.CState.mk 1 1 (fun _ => 0)
        [⟨.feedK, false, .holdBoth⟩, ⟨.articleK "a", false, .start⟩]) := by
    refine Relation.ReflTransGen.head
      (Multi.CStep.feedAcqFeeds _ 0 ⟨.feedK, false, .start⟩ rfl rfl rfl (by decide)) ?_
    exact Relation.ReflTransGen.single
      (Multi.CStep.acqTotal _ 0 ⟨.feedK, false, .holdSpec⟩ rfl rfl (by decide))
  have h := admission_counters_bounded
    [⟨.feedK, false, .start⟩, ⟨.articleK "a", false, .start⟩] _ (by
      intro w hw
      simp only [List.mem_cons, List.mem_singleton] at hw
      rcases hw with rfl | rfl | hw
      · rfl
      · rfl
      · simp at hw) hreach
  exact ⟨h.1, h.2.1, h.2.2 "a"⟩

namespace Multi

/-- A state in which every worker is either dead after a failure (never
releasing its tiers) or a feed worker still waiting on a full feeds tier has
no enabled step at all: the leaked counters can never decrease. -/
theorem no_step_of_blocked (s : CState)
    (hws : ∀ w ∈ s.workers, w.phase = .deadBoth ∨
      (w.phase = .start ∧ w.kind = .feedK ∧ ¬ s.feeds < MAX_THREADS_FEEDS)) :
    ∀ s', ¬ CStep s s' := by
  intro s' h
  cases h with
  | feedAcqFeeds i w hw hk hp hc =>
    rcases hws w (List.getElem?_mem hw) with hd | ⟨_, _, hb⟩
    · simp [hp] at hd
    · exact hb hc
  | articleAcqSite i w site hw hk hp hc =>
    rcases hws w (List.getElem?_mem hw) with hd | ⟨_, hk2, _⟩
    · simp [hp] at hd
    · rw [hk] at hk2
      simp at hk2
  | acqTotal i w hw hp hc =>
    rcases hws w (List.getElem?_mem hw) with hd | ⟨hs2, _, _⟩
    · simp [hp] at hd
    · simp [hp] at hs2
  | workPanics i w hw hp hf =>
    rcases hws w (List.getElem?_mem hw) with hd | ⟨hs2, _, _⟩
    · simp [hp] at hd
    · simp [hp] at hs2
  | feedRelFeeds i w hw hk hp hf =>
    rcases hws w (List.getElem?_mem hw) with hd | ⟨hs2, _, _⟩
    · simp [hp] at hd
    · simp [hp] at hs2
  | articleRelSite i w site hw hk hp hf =>
    rcases hws w (List.getElem?_mem hw) with hd | ⟨hs2, _, _⟩
    · simp [hp] at hd
    · simp [hp] at hs2
  | relTotal i w hw hp =>
    rcases hws w (List.getElem?_mem hw) with hd | ⟨hs2, _, _⟩
    · simp [hp] at hd
    · simp [hp] at hs2

end Multi

/-- C4 evidence: an article worker whose protected work fails increments its
site tier and the total tier and then panics (src/multi.rs line 161 unwraps
the `process_article` failure): the run reaches a final state, with no step
enabled anymore, in which both counters are still 1 — the increments were
never matched by decrements on the failure path. -/
theorem counter_leak_on_failure :
    ∃ s : Multi.CState,
      Multi.Reach (Multi.initState [⟨.articleK "a", true, .start⟩]) s ∧
      (∀ s', ¬ Multi.CStep s s') ∧
      s.total = 1 ∧ s.sites "a" = 1 ∧
      ∀ w ∈ s.workers, Multi.holdsTot w = true := by
  refine ⟨⟨0, 1, Function.update (fun _ => 0) "a" 1,
    [⟨.articleK "a", true, .deadBoth⟩]⟩, ?_, ?_, rfl, ?_, ?_⟩
  · refine Relation.ReflTransGen.head
      (Multi.CStep.articleAcqSite _ 0 _ "a" rfl rfl rfl (by decide)) ?_
    refine Relation.ReflTransGen.head
      (Multi.CStep.acqTotal _ 0 _ rfl rfl (by decide)) ?_
    refine Relation.ReflTransGen.head
      (Multi.CStep.workPanics _ 0 _ rfl rfl rfl) ?_
    exact Relation.ReflTransGen.refl
  · apply Multi.no_step_of_blocked
    intro w hw
    simp only [List.mem_singleton] at hw
    subst hw
    exact Or.inl rfl
  · simp [Function.update_same]
  · intro w hw
    simp only [List.mem_singleton] at hw
    subst hw
    rfl

/-- C2 evidence: fetch failures are not caught at the job boundary.  Five feed
workers whose fetches fail panic while holding the feeds tier (src/multi.rs
line 82 unwraps the `process_feed` failure), pinning feeds_count at its cap 5;
the sixth feed job then blocks forever: the reached state has no enabled step
although a worker is still waiting to start, so the rest of the crawl does not
continue. -/
theorem failures_stall_crawl :
    ∃ s : Multi.CState,
      Multi.Reach (Multi.initState
        [⟨.feedK, true, .start⟩, ⟨.feedK, true, .start⟩, ⟨.feedK, true, .start⟩,
         ⟨.feedK, true, .start⟩, ⟨.feedK, true, .start⟩, ⟨.feedK, false, .start⟩]) s ∧
      (∀ s', ¬ Multi.CStep s s') ∧
      (∃ w ∈ s.workers, w.phase = .start) ∧
      s.feeds = Multi.MAX_THREADS_FEEDS := by
  refine ⟨⟨5, 5, fun _ => 0,
    [⟨.feedK, true, .deadBoth⟩, ⟨.feedK, true, .deadBoth⟩, ⟨.feedK, true, .deadBoth⟩,
     ⟨.feedK, true, .deadBoth⟩, ⟨.feedK, true, .deadBoth⟩, ⟨.feedK, false, .start⟩]⟩,
    ?_, ?_, ?_, rfl⟩
  · refine Relation.ReflTransGen.head
      (Multi.CStep.feedAcqFeeds _ 0 _ rfl rfl rfl (by decide)) ?_
    refine Relation.ReflTransGen.head
      (Multi.CStep.acqTotal _ 0 _ rfl rfl (by decide)) ?_
    refine Relation.ReflTransGen.head
      (Multi.CStep.workPanics _ 0 _ rfl rfl rfl) ?_
    refine Relation.ReflTransGen.head
      (Multi.CStep.feedAcqFeeds _ 1 _ rfl rfl rfl (by decide)) ?_
    refine Relation.ReflTransGen.head
      (Multi.CStep.acqTotal _ 1 _ rfl rfl (by decide)) ?_
    refine Relation.ReflTransGen.head
      (Multi.CStep.workPanics _ 1 _ rfl rfl rfl) ?_
    refine Relation.ReflTransGen.head
      (Multi.CStep.feedAcqFeeds _ 2 _ rfl rfl rfl (by decide)) ?_
    refine Relation.ReflTransGen.head
      (Multi.CStep.acqTotal _ 2 _ rfl rfl (by decide)) ?_
    refine Relation.ReflTransGen.head
      (Multi.CStep.workPanics _ 2 _ rfl rfl rfl) ?_
    refine Relation.ReflTransGen.head
      (Multi.CStep.feedAcqFeeds _ 3 _ rfl rfl rfl (by decide)) ?_
    refine Relation.ReflTransGen.head
      (Multi.CStep.acqTotal _ 3 _ rfl rfl (by decide)) ?_
    refine Relation.ReflTransGen.head
      (Multi.CStep.workPanics _ 3 _ rfl rfl rfl) ?_
    refine Relation.ReflTransGen.head
      (Multi.CStep.feedAcqFeeds _ 4 _ rfl rfl rfl (by decide)) ?_
    refine Relation.ReflTransGen.head
      (Multi.CStep.acqTotal _ 4 _ rfl rfl (by decide)) ?_
    refine Relation.ReflTransGen.head
      (Multi.CStep.workPanics _ 4 _ rfl rfl rfl) ?_
    exact Relation.ReflTransGen.refl
  · apply Multi.no_step_of_blocked
    intro w hw
    simp only [List.mem_cons, List.mem_singleton] at hw
    rcases hw with rfl | rfl | rfl | rfl | rfl | rfl | h
    · exact Or.inl rfl
    · exact Or.inl rfl
    · exact Or.inl rfl
    · exact Or.inl rfl
    · exact Or.inl rfl
    · exact Or.inr ⟨rfl, rfl, by decide⟩
    · simp at h
  · exact ⟨⟨.feedK, false, .start⟩, by simp, rfl⟩

namespace Multi

/-- The three admission tiers of src/multi.rs `ThreadCount`. -/
inductive Tier where
  | feedTier : Tier
  | siteTier : Tier
  | totalTier : Tier
deriving DecidableEq

/-- Acquire or release of one tier. -/
inductive TierOp where
  | acq : Tier → TierOp
  | rel : Tier → TierOp
deriving DecidableEq

/-- Program-order tier operations of one feed worker on its success path,
src/multi.rs lines 62-94: acquire feeds_count (62-69), acquire total_count
(70-78), work, release feeds_count (83-88), release total_count (89-94). -/
def feedWorkerOps : List TierOp :=
  [.acq .feedTier, .acq .totalTier, .rel .feedTier, .rel .totalTier]

/-- Program-order tier operations of one article worker on its success path,
src/multi.rs lines 133-180: acquire sites_count[site] (133-149), acquire
total_count (150-158), work, release sites_count[site] (168-174), release
total_count (175-180). -/
def articleWorkerOps : List TierOp :=
  [.acq .siteTier, .acq .totalTier, .rel .siteTier, .rel .totalTier]

/-- The release discipline asserted by the claim: the total tier is released
strictly before the specific tier (the opposite of acquisition order). -/
def releasesTotalFirst (ops : List TierOp) (spec : Tier) : Prop :=
  ops.indexOf (.rel .totalTier) < ops.indexOf (.rel spec)

end Multi

/-- C5 counterexample: neither the feed worker nor the article worker of
src/multi.rs releases the total tier before its specific tier; both release
the specific tier first, in the same order as acquisition, so the claimed
opposite-order release discipline is false for every task. -/
theorem release_order_claim_false :
    ¬ (Multi.releasesTotalFirst Multi.feedWorkerOps .feedTier ∧
       Multi.releasesTotalFirst Multi.articleWorkerOps .siteTier) := by
  unfold Multi.releasesTotalFirst Multi.feedWorkerOps Multi.articleWorkerOps
  decide

/-- C5 amended: every feed task acquires the feeds tier strictly before the
total tier and every article task acquires its site tier strictly before the
total tier; a worker blocked acquiring its specific tier (control point
`start`) holds neither tier, so no caller holds total while blocking on a
specific tier; and each task releases the two tiers in the same order as
acquisition: the specific tier strictly before the total tier. -/
theorem tier_order_discipline :
    Multi.feedWorkerOps.indexOf (.acq .feedTier) <
      Multi.feedWorkerOps.indexOf (.acq .totalTier) ∧
    Multi.articleWorkerOps.indexOf (.acq .siteTier) <
      Multi.articleWorkerOps.indexOf (.acq .totalTier) ∧
    Multi.feedWorkerOps.indexOf (.rel .feedTier) <
      Multi.feedWorkerOps.indexOf (.rel .totalTier) ∧
    Multi.articleWorkerOps.indexOf (.rel .siteTier) <
      Multi.articleWorkerOps.indexOf (.rel .totalTier) ∧
    ∀ w : Multi.Worker, w.phase = .start →
      Multi.holdsSpec w = false ∧ Multi.holdsTot w = false := by
  refine ⟨by decide, by decide, by decide, by decide, ?_⟩
  intro w h
  exact ⟨by simp [Multi.holdsSpec, h], by simp [Multi.holdsTot, h]⟩

/-- Concrete instance: a feed worker waiting at its entry point holds no tier. -/
theorem tier_order_discipline_witness :
    Multi.holdsSpec ⟨.feedK, false, .start⟩ = false ∧
    Multi.holdsTot ⟨.feedK, false, .start⟩ = false :=
  tier_order_discipline.2.2.2.2 ⟨.feedK, false, .start⟩ rfl

/-! ## Worker pool, src/threadpool.rs

`ThreadPool::new(n)` starts n workers sharing one mpsc receiver behind a
mutex; each worker loops, runs `some` jobs and breaks on `none`.  `execute`
sends `Some(job)`; `Drop` sends one `None` per worker and joins them all.
The channel is FIFO and each message is received by exactly one worker, so
the executed jobs and the number of workers still running are functions of
the queue contents and the live worker count. -/

namespace ThreadPool

/-- One submitted task: its identity and whether running it panics its worker.
The closures this program submits unwrap fallible fetch/tokenize work
(src/pooled.rs lines 30-33 and 60-62), so a failing task panics, and
src/threadpool.rs line 40 runs `job.call_box()` with no panic isolation: a
panicking job kills the worker thread that runs it. -/
structure Job where
  id : Nat
  panics : Bool
deriving DecidableEq

/-- The channel contents once `Drop` (src/threadpool.rs lines 59-66) has run
its send loop: the tasks submitted via `execute`, in FIFO order, followed by
exactly one `None` stop sentinel per worker. -/
def shutdownQueue (tasks : List Job) (numWorkers : Nat) : List (Option Job) :=
  tasks.map some ++ List.replicate numWorkers none

/-- The jobs started by the workers (src/threadpool.rs lines 27-41): with at
least one worker alive, the head message is received by exactly one worker.
A `some` job runs — and kills its worker if it panics, since line 40 has no
panic isolation — while a `none` makes the receiving worker break out of its
loop.  With no worker left alive the rest of the queue is received by nobody. -/
def drainExec : List (Option Job) → Nat → List Job
  | _, 0 => []
  | [], _ + 1 => []
  | some j :: q, r + 1 => j :: drainExec q (if j.panics then r else r + 1)
  | none :: q, r + 1 => drainExec q r

/-- Workers still blocked in their receive loop once the queue has been
consumed; a worker killed by a panicking job is no longer running (and `Drop`
joins the dead thread without hanging). -/
def drainRunning : List (Option Job) → Nat → Nat
  | _, 0 => 0
  | [], r + 1 => r + 1
  | some j :: q, r + 1 => drainRunning q (if j.panics then r else r + 1)
  | none :: q, r + 1 => drainRunning q r

theorem drainExec_map_some (q : List (Option Job)) (r : Nat) :
    ∀ tasks : List Job, (∀ j ∈ tasks, j.panics = false) →
      drainExec (tasks.map some ++ q) (r + 1) = tasks ++ drainExec q (r + 1)
  | [], _ => rfl
  | t :: tasks, hok => by
    have ih := drainExec_map_some q r tasks fun j hj => hok j (List.mem_cons_of_mem t hj)
    have ht : t.panics = false := hok t (List.mem_cons_self t tasks)
    simp only [List.map_cons, List.cons_append, drainExec, ht, Bool.false_eq_true,
      if_false]
    exact congrArg (List.cons t) ih

theorem drainExec_replicate : ∀ (k r : Nat), drainExec (List.replicate k none) r = []
  | 0, 0 => rfl
  | 0, _ + 1 => rfl
  | _ + 1, 0 => rfl
  | k + 1, r + 1 => by
    simp only [List.replicate, drainExec]
    exact drainExec_replicate k r

theorem drainRunning_map_some (q : List (Option Job)) (r : Nat) :
    ∀ tasks : List Job, (∀ j ∈ tasks, j.panics = false) →
      drainRunning (tasks.map some ++ q) (r + 1) = drainRunning q (r + 1)
  | [], _ => rfl
  | t :: tasks, hok => by
    have ih := drainRunning_map_some q r tasks fun j hj => hok j (List.mem_cons_of_mem t hj)
    have ht : t.panics = false := hok t (List.mem_cons_self t tasks)
    simp only [List.map_cons, List.cons_append, drainRunning, ht, Bool.false_eq_true,
      if_false]
    exact ih

theorem drainRunning_replicate : ∀ (k r : Nat), drainRunning (List.replicate k none) r = r - k
  | 0, 0 => rfl
  | 0, _ + 1 => rfl
  | _ + 1, 0 => by simp [drainRunning]
  | k + 1, r + 1 => by
    simp only [List.replicate, drainRunning, drainRunning_replicate k r]
    omega

end ThreadPool

/-- C6 counterexample: the claim fails in two ways.  A pool built with zero
workers never executes its submitted task although shutdown completes with no
worker running.  And a worker does not survive its jobs: with one worker, a
first task that panics (as the fallible closures this program submits can)
kills the worker, so the second task is received by nobody and executes zero
times — not exactly once — while Drop still joins the dead worker and
returns with no worker running. -/
theorem pool_drop_loses_tasks :
    (ThreadPool.drainExec (ThreadPool.shutdownQueue [⟨7, false⟩] 0) 0).count
      ⟨7, false⟩ = 0 ∧
    (ThreadPool.drainExec
      (ThreadPool.shutdownQueue [⟨1, true⟩, ⟨2, false⟩] 1) 1).count ⟨2, false⟩ = 0 ∧
    ThreadPool.drainRunning (ThreadPool.shutdownQueue [⟨1, true⟩, ⟨2, false⟩] 1) 1 = 0 :=
  ⟨rfl, rfl, rfl⟩

/-- C6 amended: for every ThreadPool with at least one worker and every list
of tasks, none of which panics its worker, submitted via execute before
shutdown (Drop) begins: after shutdown returns, no worker thread remains
running, every submitted task has executed exactly once (in FIFO order), and
shutdown enqueues exactly one stop-sentinel (None) per worker rather than
using a shared stop flag.  (With zero workers, or when a task panics, later
tasks can go unexecuted — see the counterexample.) -/
theorem pool_drain_guarantee (tasks : List ThreadPool.Job) (n : Nat) (hn : 1 ≤ n)
    (hok : ∀ j ∈ tasks, j.panics = false) :
    ThreadPool.drainExec (ThreadPool.shutdownQueue tasks n) n = tasks ∧
    ThreadPool.drainRunning (ThreadPool.shutdownQueue tasks n) n = 0 ∧
    (ThreadPool.shutdownQueue tasks n).countP (fun m => m.isNone) = n := by
  obtain ⟨m, rfl⟩ : ∃ m, n = m + 1 := ⟨n - 1, by omega⟩
  refine ⟨?_, ?_, ?_⟩
  · rw [ThreadPool.shutdownQueue, ThreadPool.drainExec_map_some _ _ _ hok,
      ThreadPool.drainExec_replicate, List.append_nil]
  · rw [ThreadPool.shutdownQueue, ThreadPool.drainRunning_map_some _ _ _ hok,
      ThreadPool.drainRunning_replicate]
    omega
  · rw [ThreadPool.shutdownQueue, List.countP_append]
    have h1 : (tasks.map some).countP (fun m => m.isNone) = 0 := by
      rw [List.countP_eq_zero]
      intro x hx
      obtain ⟨t, _, rfl⟩ := List.mem_map.mp hx
      simp [Option.isNone]
    rw [h1, List.countP_replicate]
    simp [Option.isNone]

/-- Concrete instance of the drain guarantee: two non-panicking tasks, two
workers. -/
theorem pool_drain_guarantee_witness :
    ThreadPool.drainExec (ThreadPool.shutdownQueue [⟨3, false⟩, ⟨4, false⟩] 2) 2 =
      [⟨3, false⟩, ⟨4, false⟩] ∧
    ThreadPool.drainRunning (ThreadPool.shutdownQueue [⟨3, false⟩, ⟨4, false⟩] 2) 2 = 0 :=
  ⟨(pool_drain_guarantee [⟨3, false⟩, ⟨4, false⟩] 2 (by decide) (by decide)).1,
   (pool_drain_guarantee [⟨3, false⟩, ⟨4, false⟩] 2 (by decide) (by decide)).2.1⟩

/-! ## Item-skipping semantics (C7) -/

/-- An article-level item missing link or title is skipped by the
single-strategy item loop: removing it changes nothing. -/
theorem single_skips_bad_item (o : Oracle) (furl : String) (bad : Item)
    (hbad : bad.link = none ∨ bad.title = none) (post : List Item) :
    ∀ pre : List Item,
      Single.processItems o furl (pre ++ bad :: post) =
        Single.processItems o furl (pre ++ post)
  | [] => by
    rcases hbad with h | h
    · simp only [List.nil_append, Single.processItems, h]
    · cases hl : bad.link with
      | none => simp only [List.nil_append, Single.processItems, hl]
      | some u =>
        cases hh : o.host furl with
        | none => simp only [List.nil_append, Single.processItems, hl, hh]
        | some st => simp only [List.nil_append, Single.processItems, hl, hh, h]
  | x :: pre => by
    have ih := single_skips_bad_item o furl bad hbad post pre
    cases hl : x.link with
    | none => simpa only [List.cons_append, Single.processItems, hl] using ih
    | some u =>
      cases hh : o.host furl with
      | none => simpa only [List.cons_append, Single.processItems, hl, hh] using ih
      | some st =>
        cases ht : x.title with
        | none => simpa only [List.cons_append, Single.processItems, hl, hh, ht] using ih
        | some t =>
          cases hw : o.tokenize ⟨t, u⟩ with
          | none => simp only [List.cons_append, Single.processItems, hl, hh, ht, hw]
          | some w =>
            simp only [List.cons_append, Single.processItems, hl, hh, ht, hw]
            have ih2 : Single.processItems o furl (pre.append (bad :: post)) =
                Single.processItems o furl (pre.append post) := ih
            rw [ih2]

/-- The filter of the multi-strategy item loop drops an item missing link or
title. -/
theorem multi_drops_bad_item (o : Oracle) (furl : String) (bad : Item)
    (hbad : bad.link = none ∨ bad.title = none) (pre post : List Item) :
    Multi.itemJobs o furl (pre ++ bad :: post) = Multi.itemJobs o furl (pre ++ post) := by
  unfold Multi.itemJobs
  rw [List.filterMap_append, List.filterMap_append, List.filterMap_cons]
  rcases hbad with h | h
  · simp only [h]
  · cases hl : bad.link with
    | none => simp only [hl]
    | some u =>
      cases hh : o.host furl with
      | none => simp only [hl, hh]
      | some st => simp only [hl, hh, h]

/-- The filter of the pooled item loop drops an item missing link or title. -/
theorem pooled_drops_bad_item (o : Oracle) (furl : String) (bad : Item)
    (hbad : bad.link = none ∨ bad.title = none) (pre post : List Item) :
    Pooled.itemClosures o furl (pre ++ bad :: post) =
      Pooled.itemClosures o furl (pre ++ post) := by
  unfold Pooled.itemClosures
  rw [List.filterMap_append, List.filterMap_append, List.filterMap_cons]
  rcases hbad with h | h
  · simp only [h]
  · cases hl : bad.link with
    | none => simp only [hl]
    | some u =>
      cases hh : o.host furl with
      | none => simp only [hl, hh]
      | some st => simp only [hl, hh, h]

/-- A feed URL with no hostname makes every item of that feed miss its
hostname: all are skipped, none aborts anything. -/
theorem no_hostname_skips_all (o : Oracle) (furl : String) (hh : o.host furl = none) :
    ∀ items : List Item,
      Single.processItems o furl items = ([], true) ∧
      Multi.itemJobs o furl items = [] ∧
      Pooled.itemClosures o furl items = []
  | [] => ⟨rfl, rfl, rfl⟩
  | x :: items => by
    have ih := no_hostname_skips_all o furl hh items
    refine ⟨?_, ?_, ?_⟩
    · cases hl : x.link with
      | none => simpa only [Single.processItems, hl] using ih.1
      | some u => simpa only [Single.processItems, hl, hh] using ih.1
    · have hfx : (match x.link, o.host furl, x.title with
          | some u, some s, some t => some (Multi.articleJobEvents o s t u)
          | _, _, _ => none) = none := by
        cases x.link with
        | none => rfl
        | some u => rw [hh]
      rw [show Multi.itemJobs o furl (x :: items) = Multi.itemJobs o furl items from
        List.filterMap_cons_none hfx]
      exact ih.2.1
    · have hfx : (match x.link, o.host furl, x.title with
          | some u, some s, some t => some (Pooled.articleClosureEvents o s t u)
          | _, _, _ => none) = none := by
        cases x.link with
        | none => rfl
        | some u => rw [hh]
      rw [show Pooled.itemClosures o furl (x :: items) = Pooled.itemClosures o furl items from
        List.filterMap_cons_none hfx]
      exact ih.2.2

/-- C7 counterexample: a TOP-LEVEL feed-list item missing its title is not
silently skipped: with it present the single-strategy crawl aborts (the run
fails), while without it the same crawl succeeds — so one bad item does abort
the crawl, contradicting the claim for feed-list items. -/
theorem missing_field_aborts_run :
    (Single.process_feed_file
      ⟨fun _ => some [], fun _ => some "h", fun _ => some []⟩
      (some [⟨some "u", none⟩])).2 = false ∧
    (Single.process_feed_file
      ⟨fun _ => some [], fun _ => some "h", fun _ => some []⟩
      (some [])).2 = true :=
  ⟨rfl, rfl⟩

/-- C7 amended: every ARTICLE-level item (an item of a fetched feed document)
that is missing its link, its title, or a hostname is silently skipped in all
three strategies: it contributes nothing and its absence never aborts the
enclosing feed, the crawl, or the process.  (A top-level feed-list item with
missing fields is NOT skipped: it aborts the single-strategy run and panics
the corresponding worker in multi/pool — see the counterexample.) -/
theorem article_item_skipped (o : Oracle) (furl : String) (bad : Item)
    (hbad : bad.link = none ∨ bad.title = none) (pre post : List Item)
    (hfurl : String) (hhost : o.host hfurl = none) (items : List Item) :
    Single.processItems o furl (pre ++ bad :: post) =
      Single.processItems o furl (pre ++ post) ∧
    Multi.itemJobs o furl (pre ++ bad :: post) = Multi.itemJobs o furl (pre ++ post) ∧
    Pooled.itemClosures o furl (pre ++ bad :: post) =
      Pooled.itemClosures o furl (pre ++ post) ∧
    Single.processItems o hfurl items = ([], true) ∧
    Multi.itemJobs o hfurl items = [] ∧
    Pooled.itemClosures o hfurl items = [] := by
  obtain ⟨hs, hm, hp⟩ := no_hostname_skips_all o hfurl hhost items
  exact ⟨single_skips_bad_item o furl bad hbad post pre,
    multi_drops_bad_item o furl bad hbad pre post,
    pooled_drops_bad_item o furl bad hbad pre post, hs, hm, hp⟩

/-- Concrete instance: dropping a linkless item between two good articles
leaves the single-strategy adds unchanged. -/
theorem article_item_skipped_witness :
    Single.processItems
      ⟨fun _ => some [], fun u => if u = "f" then some "h" else none,
        fun _ => some [("w", 1)]⟩ "f"
      ([⟨some "a1", some "A1"⟩] ++ ⟨none, some "BAD"⟩ :: [⟨some "a2", some "A2"⟩]) =
    Single.processItems
      ⟨fun _ => some [], fun u => if u = "f" then some "h" else none,
        fun _ => some [("w", 1)]⟩ "f"
      ([⟨some "a1", some "A1"⟩] ++ [⟨some "a2", some "A2"⟩]) :=
  (article_item_skipped
    ⟨fun _ => some [], fun u => if u = "f" then some "h" else none,
      fun _ => some [("w", 1)]⟩ "f"
    ⟨none, some "BAD"⟩ (Or.inl rfl) [⟨some "a1", some "A1"⟩] [⟨some "a2", some "A2"⟩]
    "g" (by decide) []).1

/-! ## Query-result formatting, src/main.rs lines 79-103 -/

/-- src/main.rs line 14. -/
def MAX_MATCHES : Nat := 10

/-- The sort order of src/main.rs lines 85-88: descending hit count, with ties
broken by ascending title (`art2.1.cmp(&art1.1).then(art1.0.title.cmp(&art2.0.title))`). -/
def matchOrder (x y : Article × Nat) : Prop :=
  y.2 < x.2 ∨ (x.2 = y.2 ∧ x.1.title ≤ y.1.title)

instance : DecidableRel matchOrder := fun x y => by
  unfold matchOrder
  infer_instance

instance : IsTotal (Article × Nat) matchOrder :=
  ⟨fun a b => by
    unfold matchOrder
    rcases Nat.lt_trichotomy a.2 b.2 with h | h | h
    · exact Or.inr (Or.inl h)
    · rcases le_total a.1.title b.1.title with ht | ht
      · exact Or.inl (Or.inr ⟨h, ht⟩)
      · exact Or.inr (Or.inr ⟨h.symm, ht⟩)
    · exact Or.inl (Or.inl h)⟩

instance : IsTrans (Article × Nat) matchOrder :=
  ⟨fun a b c hab hbc => by
    unfold matchOrder at hab hbc ⊢
    rcases hab with h1 | ⟨h1, t1⟩ <;> rcases hbc with h2 | ⟨h2, t2⟩
    · exact Or.inl (h2.trans h1)
    · exact Or.inl (h2 ▸ h1)
    · exact Or.inl (by omega)
    · exact Or.inr ⟨h1.trans h2, t1.trans t2⟩⟩

/-- src/main.rs line 98: singular "time" exactly for a count of one. -/
def timesWord (c : Nat) : String := if c = 1 then "time" else "times"

/-- The two lines printed per displayed entry, src/main.rs lines 99-100. -/
def entryLines (p : Article × Nat) : List String :=
  ["\"" ++ p.1.title ++ "\" [appears " ++ toString p.2 ++ " " ++ timesWord p.2 ++ "].",
   "        \"" ++ p.1.url ++ "\""]

/-- The lines printed for a query term whose match set is m, src/main.rs lines
82-101: the count line, the header ("Here are the top 10 of them:" when more
than MAX_MATCHES articles match, plain otherwise), then one entry per element
of the first min(len, MAX_MATCHES) sorted matches. -/
def renderMatches (m : List (Article × Nat)) : List String :=
  let articles := List.insertionSort matchOrder m
  ("That term appears in " ++ toString m.length ++ " articles.")
    :: (if m.length > MAX_MATCHES then
          "Here are the top " ++ toString MAX_MATCHES ++ " of them:"
        else "Here they are:")
    :: (articles.take (min articles.length MAX_MATCHES)).flatMap entryLines

/-- C8: for a query term with a non-empty match set of n articles, the query
loop prints the match count, sorts by descending hit count with ties by
ascending title, prints the plain header exactly when n is at most 10 and the
top-10 header otherwise, prints exactly min(n, 10) entries of two lines each
(title/count line then URL line), and uses singular "time" exactly for
count 1. -/
theorem query_output_format (m : List (Article × Nat)) (hm : m ≠ []) :
    ∃ l : List (Article × Nat),
      m.Perm l ∧ l.Sorted matchOrder ∧
      renderMatches m =
        ("That term appears in " ++ toString m.length ++ " articles.")
          :: (if m.length ≤ MAX_MATCHES then "Here they are:"
              else "Here are the top " ++ toString MAX_MATCHES ++ " of them:")
          :: (l.take MAX_MATCHES).flatMap entryLines ∧
      (l.take MAX_MATCHES).length = min m.length MAX_MATCHES ∧
      ∀ p ∈ l.take MAX_MATCHES,
        entryLines p =
          ["\"" ++ p.1.title ++ "\" [appears " ++ toString p.2 ++ " " ++
             (if p.2 = 1 then "time" else "times") ++ "].",
           "        \"" ++ p.1.url ++ "\""] := by
  refine ⟨List.insertionSort matchOrder m, (List.perm_insertionSort matchOrder m).symm,
    List.sorted_insertionSort matchOrder m, ?_, ?_, ?_⟩
  · unfold renderMatches
    dsimp only
    have hlen : (List.insertionSort matchOrder m).length = m.length :=
      (List.perm_insertionSort matchOrder m).length_eq
    have htake : (List.insertionSort matchOrder m).take
        (min (List.insertionSort matchOrder m).length MAX_MATCHES) =
        (List.insertionSort matchOrder m).take MAX_MATCHES := by
      rw [Nat.min_comm, ← List.take_take, List.take_length]
    rw [htake]
    by_cases h : m.length ≤ MAX_MATCHES
    · rw [if_neg (by omega), if_pos h]
    · rw [if_pos (by omega), if_neg h]
  · rw [List.length_take, (List.perm_insertionSort matchOrder m).length_eq, Nat.min_comm]
  · intro p _
    rfl

/-- Concrete instance: a one-article match set renders with the plain header. -/
theorem query_output_format_witness :
    ∃ l : List (Article × Nat),
      ([(⟨"T", "U"⟩, 1)] : List (Article × Nat)).Perm l ∧ l.Sorted matchOrder ∧
      renderMatches [(⟨"T", "U"⟩, 1)] =
        ("That term appears in " ++ toString (1 : Nat) ++ " articles.")
          :: (if (1 : Nat) ≤ MAX_MATCHES then "Here they are:"
              else "Here are the top " ++ toString MAX_MATCHES ++ " of them:")
          :: (l.take MAX_MATCHES).flatMap entryLines ∧
      (l.take MAX_MATCHES).length = min 1 MAX_MATCHES ∧
      ∀ p ∈ l.take MAX_MATCHES,
        entryLines p =
          ["\"" ++ p.1.title ++ "\" [appears " ++ toString p.2 ++ " " ++
             (if p.2 = 1 then "time" else "times") ++ "].",
           "        \"" ++ p.1.url ++ "\""] :=
  query_output_format [(⟨"T", "U"⟩, 1)] (by decide)

end RssFeed
